import Mathlib

/-!
Verification of the monpar parser-combinator library.

The source is TypeScript; strings are modelled as lists of characters and a
parser result is, as in the source, a list of value/remainder pairs where the
empty list means failure.  All combinators are translated directly from the
source files (src/unnamed/part_001 and src/src/index.ts; the two agree on
everything modelled here except the lazy-argument convention of alt, for which
both variants are modelled).  The while loop of many is modelled with explicit
fuel (manyF); running out of fuel returns Option.none and corresponds to the
loop not terminating within that many iterations.
-/

namespace Monpar

/-- Input strings, modelled as lists of characters. -/
abbrev Str := List Char

/-- Result is a list of tuples; an empty list means the parser failed. -/
abbrev ParserRes (T : Type) := List (T × Str)

/-- A parser consumes an input string and yields a result. -/
abbrev Parser (T : Type) := Str → ParserRes T

variable {A B T U : Type}

/-- parserHasFailed from the source: a result means failure when it is empty. -/
def parserHasFailed (result : ParserRes T) : Bool := result.length == 0

/-- fmap: apply a function to the value of the first result entry; failure
propagates.  The source checks for failure and then reads entry 0, which is
exactly the cons match below. -/
def fmap (fn : A → B) (p : Parser A) : Parser B := fun inp =>
  match p inp with
  | [] => []
  | (v, out) :: _ => [(fn v, out)]

/-- pure: always succeed with the given value, consuming nothing. -/
def pure (a : T) : Parser T := fun inp => [(a, inp)]

/-- empty: a nullary function returning a parser that always fails.  The Unit
argument mirrors the nullary call empty() in the source. -/
def empty (_u : Unit) : Parser T := fun _ => []

/-- bind: monadic sequencing; on failure of the first parser propagate failure
without touching the continuation, otherwise run the continuation on the value
and remainder of result entry 0. -/
def bind (p : Parser A) (fn : A → Parser B) : Parser B := fun inp =>
  match p inp with
  | [] => []
  | (v, out) :: _ => fn v out

/-- ap, defined from bind and fmap exactly as in the source. -/
def ap (pf : Parser (A → B)) (pa : Parser A) : Parser B :=
  bind pf (fun fn => fmap fn pa)

/-- alt in the form of src/src/index.ts: the second alternative is a
zero-argument function, called only when the first parser fails, on the
original input. -/
def alt (parserA : Parser T) (parserB : Unit → Parser T) : Parser T := fun inp =>
  let res := parserA inp
  if res.isEmpty then parserB () inp else res

/-- alts: parsers.reduce((acc, curr) => () => alt(acc(), curr))().  The reduce
has no seed, so the first thunk is the initial accumulator and the trailing
call forces the whole chain.  The source assumes at least two parsers; for the
empty list JavaScript reduce would throw, modelled here as the failing parser
(unreachable under the documented precondition). -/
def alts (parsers : List (Unit → Parser T)) : Parser T :=
  match parsers with
  | [] => Monpar.empty ()
  | t :: rest => (rest.foldl (fun acc curr => fun _ => alt (acc ()) curr) t) ()

/-- The while loop of many, with explicit fuel: keep applying the parser,
collecting values from result entry 0, until an application fails; Option.none
means the fuel was exhausted before the loop exited (non-termination within
that many iterations). -/
def manyF (p : Parser T) : Nat → Str → Option (List T × Str)
  | 0, _ => Option.none
  | fuel + 1, inp =>
    match p inp with
    | [] => Option.some ([], inp)
    | (v, rest) :: _ =>
      match manyF p fuel rest with
      | Option.none => Option.none
      | Option.some (vs, fin) => Option.some (v :: vs, fin)

/-- many: the loop of the source, run with enough fuel for any parser that
consumes input on success (one iteration per character plus the final failing
probe).  For such parsers this is exactly the source loop; the Option.none
branch is unreachable for them. -/
def many (p : Parser T) : Parser (List T) := fun inp =>
  match manyF p (inp.length + 1) inp with
  | Option.some r => [r]
  | Option.none => []

/-- some: run many, then fail when the collected list of result entry 0 is
empty, otherwise return many's result unchanged.  The empty match arm is
unreachable when many terminates (many always returns one entry). -/
def some (p : Parser T) : Parser (List T) := fun inp =>
  let res := many p inp
  match res with
  | (v, _) :: _ => if v.length = 0 then [] else res
  | [] => []

/-- take: consume exactly the first character (as a one-character string);
fail on empty input. -/
def take : Parser Str := fun inp =>
  if inp.length > 0 then [(inp.take 1, inp.drop 1)] else []

/-- peek: never fails, never consumes; yields the first character or the empty
string (inp[0] || "" in the source). -/
def peek : Parser Str := fun inp => [(inp.take 1, inp)]

/-- JavaScript numbers as they arise from Number(): either a numeric value or
NaN.  Only unsigned integral values occur in this library. -/
inductive JSNum where
  | nan : JSNum
  | num : Nat → JSNum
deriving DecidableEq, Repr

/-- JavaScript Number() conversion, modelled for the strings this library can
feed it (takeDigit always passes a single character): a string of whitespace,
including the empty string, converts to 0; a string of digits converts to its
value; anything else is NaN. -/
def jsNumber (s : Str) : JSNum :=
  if s.all (fun c => c == ' ' || c == '\t' || c == '\n' || c == '\r') then JSNum.num 0
  else if s.all (fun c => c.isDigit) then
    JSNum.num (s.foldl (fun acc c => acc * 10 + (c.toNat - 48)) 0)
  else JSNum.nan

/-- takeDigit: liftAs(Number, take); liftAs with a single parser is fmap. -/
def takeDigit : Parser JSNum := fmap jsNumber take

/-- sentence: match the given string exactly as a prefix of the input. -/
def sentence (str : Str) : Parser Str := fun inp =>
  if inp.length < str.length then []
  else
    let former := inp.take str.length
    let latter := inp.drop str.length
    if former = str then [(former, latter)] else []

/-- sat: take one character and test the predicate on it; succeed with the
character or fail, exactly bind(take, x => pred(x) ? pure(x) : empty()). -/
def sat (pred : Str → Bool) : Parser Str :=
  bind take (fun x => if pred x then Monpar.pure x else Monpar.empty ())

/-- Curried equality test from the source. -/
def eq (x : Str) : Str → Bool := fun y => x == y

/-- alpha: regex test for an ASCII letter anywhere in the (one-character)
string. -/
def alpha : Parser Str := sat (fun s => s.any (fun c => c.isAlpha))

/-- numeric: regex test for an ASCII digit. -/
def numeric : Parser Str := sat (fun s => s.any (fun c => c.isDigit))

/-- aphaNumeric (name as in the source): letters or digits via alt. -/
def aphaNumeric : Parser Str := alt alpha (fun _ => numeric)

/-- space: exactly one space character. -/
def space : Parser Str := sat (eq [' '])

/-- char: sat specialised to equality with the given (one-character) string. -/
def char (c : Str) : Parser Str := sat (eq c)

/-- whitespace: space, tab or newline. -/
def whitespace : Parser Str :=
  sat (fun s => s.any (fun c => c == '\n' || c == '\t' || c == ' '))

/-- token: liftAs(() => res => () => res, many whitespace, parser,
many whitespace); with three parsers liftAs is ap(ap(fmap fn p0, p1), p2). -/
def token (p : Parser T) : Parser T :=
  ap (ap (fmap (fun (_ : List Str) (res : T) (_ : List Str) => res) (many whitespace)) p)
    (many whitespace)

/-- unpack: return the value of result entry 0 only when the parse succeeded
and the remainder is exactly empty; otherwise return no value (undefined). -/
def unpack (p : Parser T) (inp : Str) : Option T :=
  match p inp with
  | [] => Option.none
  | (v, rem) :: _ => if rem ≠ [] then Option.none else Option.some v

/-- A parser is deterministic when it never returns more than one result
entry on any input. -/
def Det (p : Parser T) : Prop := ∀ s : Str, (p s).length ≤ 1

/-- Closure of the exported primitives and combinators: exactly the parsers a
client can build from the library surface (liftAs with one parser is fmap and
with more parsers is the ap/fmap chain, so fmap and ap cover it). -/
inductive Built : {T : Type} → Parser T → Prop where
  | pure {T : Type} (a : T) : Built (Monpar.pure a)
  | empty {T : Type} : Built (Monpar.empty () : Parser T)
  | fmap {A B : Type} {p : Parser A} (fn : A → B) : Built p → Built (Monpar.fmap fn p)
  | bind {A B : Type} {p : Parser A} {fn : A → Parser B} :
      Built p → (∀ a, Built (fn a)) → Built (Monpar.bind p fn)
  | ap {A B : Type} {pf : Parser (A → B)} {pa : Parser A} :
      Built pf → Built pa → Built (Monpar.ap pf pa)
  | alt {T : Type} {p : Parser T} {q : Unit → Parser T} :
      Built p → Built (q ()) → Built (Monpar.alt p q)
  | alts {T : Type} (ps : List (Unit → Parser T)) :
      (∀ q ∈ ps, Built (q ())) → Built (Monpar.alts ps)
  | many {T : Type} {p : Parser T} : Built p → Built (Monpar.many p)
  | some {T : Type} {p : Parser T} : Built p → Built (Monpar.some p)
  | take : Built Monpar.take
  | peek : Built Monpar.peek
  | sat (pred : Str → Bool) : Built (Monpar.sat pred)
  | char (c : Str) : Built (Monpar.char c)
  | sentence (str : Str) : Built (Monpar.sentence str)
  | whitespace : Built Monpar.whitespace
  | token {T : Type} {p : Parser T} : Built p → Built (Monpar.token p)

/-- Follows the spec's words for many: repeatedly apply the parser to
successive remainders, collecting successful values in order, until an
application fails; the remainder is the one at the last success. -/
inductive ManySpec {T : Type} (p : Parser T) : Str → List T → Str → Prop where
  | stop {s : Str} : p s = [] → ManySpec p s [] s
  | step {s rest fin : Str} {v : T} {vs : List T} {t : ParserRes T} :
      p s = (v, rest) :: t → ManySpec p rest vs fin → ManySpec p s (v :: vs) fin

/-! ## Instrumented embedding of the lazy-choice combinators

To make forcing of deferred alternatives observable, thunks carry a numeric
probe id and every computation threads a log of the ids forced so far, in
order.  This is the direct translation of alt and alts from the source with
the only addition that calling a thunk appends its id to the log. -/

/-- The log of probe ids forced so far, in order. -/
abbrev Log := List Nat

/-- A parser whose run may force thunks and hence extend the log. -/
abbrev IParser (T : Type) := Str → Log → ParserRes T × Log

/-- A deferred parser reference: forcing it yields the parser and extends the
log. -/
abbrev IThunk (T : Type) := Log → IParser T × Log

/-- Lift a pure parser: running it never forces anything. -/
def liftP (p : Parser T) : IParser T := fun inp log => (p inp, log)

/-- A thunk with probe id i wrapping the given parser: forcing it logs i. -/
def thk (i : Nat) (p : IParser T) : IThunk T := fun log => (p, log ++ [i])

/-- alt, instrumented: run the first parser; if it failed, force the second
thunk (logging its probe id) and run the forced parser on the original
input. -/
def altI (pA : IParser T) (pB : IThunk T) : IParser T := fun inp log =>
  let r := pA inp log
  if r.1.isEmpty then
    let q := pB r.2
    q.1 inp q.2
  else r

/-- The accumulator loop of alts: reduce((acc, curr) => () => alt(acc(), curr)).
The new accumulator is a thunk that forces the old accumulator and wraps the
resulting parser in alt with the still-unforced current thunk. -/
def altsAcc (acc : IThunk T) : List (IThunk T) → IThunk T
  | [] => acc
  | curr :: rest => altsAcc (fun log => let a := acc log; (altI a.1 curr, a.2)) rest

/-- alts, instrumented: reduce over the thunk list and then call the final
accumulator; the call happens at construction time, before any input exists,
and the log it produces is the construction-time forcing trace.  The empty
list is unreachable (JavaScript reduce without a seed throws on it). -/
def altsBuild (parsers : List (IThunk T)) : IParser T × Log :=
  match parsers with
  | [] => (liftP (Monpar.empty ()), [])
  | t :: rest => altsAcc t rest []

/-- Ordered-choice result over a first result and a list of further
alternatives: the first alternative to succeed wins, later ones are not
consulted. -/
def ordRes (r : ParserRes T) (qs : List (Nat × Parser T)) (inp : Str) : ParserRes T :=
  match qs with
  | [] => r
  | (_, q) :: rest => if r.isEmpty then ordRes (q inp) rest inp else r

/-- The probe ids forced during one invocation: an alternative is forced
exactly when everything before it failed on this input. -/
def forcedMarks (r : ParserRes T) (qs : List (Nat × Parser T)) (inp : Str) : Log :=
  match qs with
  | [] => []
  | (i, q) :: rest => if r.isEmpty then i :: forcedMarks (q inp) rest inp else []

/-- How many of the later alternatives get forced during one invocation. -/
def numForced (r : ParserRes T) (qs : List (Nat × Parser T)) (inp : Str) : Nat :=
  match qs with
  | [] => 0
  | (_, q) :: rest => if r.isEmpty then numForced (q inp) rest inp + 1 else 0

/-- Result and marks of the ordered-choice cascade, threaded together. -/
def ordStep (r : ParserRes T × Log) : List (Nat × Parser T) → Str → ParserRes T × Log
  | [], _ => r
  | (i, q) :: rest, inp =>
    if r.1.isEmpty then ordStep (q inp, r.2 ++ [i]) rest inp else r

/-- Symbolic form of the left fold of altI over lifted thunks, used to relate
the built alts parser to ordStep. -/
def chainF (F : Str → ParserRes T × Log) :
    List (Nat × Parser T) → Str → ParserRes T × Log
  | [], inp => F inp
  | (i, q) :: rest, inp =>
    chainF (fun s => let r := F s; if r.1.isEmpty then (q s, r.2 ++ [i]) else r) rest inp

/-! ## JavaScript value model for the LazyVal convention of part_001

In part_001, alt's second argument has type LazyVal, and isImmediate decides
dynamically by arity: a value is immediate unless it is a function whose
declared parameter count is zero.  To state claims about this test the values
are modelled as a small universe: arrays (parser results) and functions that
record their declared arity together with their behaviour when called with no
argument and with one argument (JavaScript permits both calls regardless of
declared arity). -/

/-- A JavaScript value as it can reach force and alt in part_001. -/
inductive JVal (T : Type) where
  | arr (r : ParserRes T) : JVal T
  | fn (arity : Nat) (call0 : Unit → JVal T) (call1 : Str → JVal T) : JVal T

instance {T : Type} : Nonempty (JVal T) := ⟨JVal.arr []⟩

/-- isImmediate from the source: typeof t != "function" || t.length != 0. -/
def isImmediate (t : JVal T) : Bool :=
  match t with
  | JVal.fn 0 _ _ => false
  | _ => true

/-- force from the source: isImmediate(t) ? t : t(); the array arm of the
inner match is unreachable because non-immediate values are functions. -/
def force (t : JVal T) : JVal T :=
  if isImmediate t then t
  else
    match t with
    | JVal.fn _ call0 _ => call0 ()
    | JVal.arr r => JVal.arr r

/-- Calling a JavaScript value with one argument, as alt does with the forced
second alternative: calling anything that is not a function is a TypeError,
modelled as Except.error; a function call that does not return an array is
outside the Outcome representation and also modelled as Except.error. -/
def jsApply (v : JVal T) (inp : Str) : Except Unit (ParserRes T) :=
  match v with
  | JVal.fn _ _ call1 =>
    match call1 inp with
    | JVal.arr r => Except.ok r
    | JVal.fn _ _ _ => Except.error ()
  | JVal.arr _ => Except.error ()

/-- The parser value returned by empty(): the function literal () => [] has
declared arity zero and returns the empty array whether called with zero or
one arguments. -/
def emptyJS : JVal T := JVal.fn 0 (fun _ => JVal.arr []) (fun _ => JVal.arr [])

/-- alt from part_001 with the second argument a JavaScript value: run the
first parser; on failure force the second argument and call the forced value
on the original input. -/
def altJS (parserA : Parser T) (parserB : JVal T) (inp : Str) :
    Except Unit (ParserRes T) :=
  let res := parserA inp
  if res.isEmpty then jsApply (force parserB) inp else Except.ok res

end Monpar

namespace Monpar

variable {A B T U : Type}

/-! ## Determinism lemmas: every combinator keeps results at zero or one
entry. -/

theorem det_pure (a : T) : Det (Monpar.pure a) := by
  intro s
  simp [Monpar.pure]

theorem det_empty : Det (Monpar.empty () : Parser T) := by
  intro s
  simp [Monpar.empty]

theorem det_fmap (fn : A → B) (p : Parser A) : Det (Monpar.fmap fn p) := by
  intro s
  rcases h : p s with _ | ⟨⟨v, out⟩, t⟩ <;> simp [Monpar.fmap, h]

theorem det_bind {p : Parser A} {fn : A → Parser B} (hf : ∀ a, Det (fn a)) :
    Det (Monpar.bind p fn) := by
  intro s
  rcases h : p s with _ | ⟨⟨v, out⟩, t⟩
  · simp [Monpar.bind, h]
  · simpa [Monpar.bind, h] using hf v out

theorem det_ap (pf : Parser (A → B)) (pa : Parser A) : Det (Monpar.ap pf pa) :=
  det_bind (fun fn => det_fmap fn pa)

theorem det_alt {p : Parser T} {q : Unit → Parser T} (hp : Det p)
    (hq : Det (q ())) : Det (Monpar.alt p q) := by
  intro s
  by_cases h : (p s).isEmpty
  · simpa [Monpar.alt, h] using hq s
  · simpa [Monpar.alt, h] using hp s

theorem det_many (p : Parser T) : Det (Monpar.many p) := by
  intro s
  rcases h : Monpar.manyF p (s.length + 1) s with _ | r <;> simp [Monpar.many, h]

theorem det_some (p : Parser T) : Det (Monpar.some p) := by
  intro s
  have hm := det_many p s
  rcases h : Monpar.many p s with _ | ⟨⟨v, rem⟩, t⟩
  · simp [Monpar.some, h]
  · rw [h] at hm
    by_cases hv : v.length = 0 <;> simp [Monpar.some, h, hv]
    simpa using hm

theorem det_take : Det Monpar.take := by
  intro s
  by_cases h : s.length > 0 <;> simp [Monpar.take, h]

theorem det_peek : Det Monpar.peek := by
  intro s
  simp [Monpar.peek]

theorem det_sentence (str : Str) : Det (Monpar.sentence str) := by
  intro s
  by_cases h1 : s.length < str.length
  · simp [Monpar.sentence, h1]
  · by_cases h2 : s.take str.length = str <;> simp [Monpar.sentence, h1, h2]

theorem det_sat (pred : Str → Bool) : Det (Monpar.sat pred) := by
  apply det_bind
  intro a
  by_cases h : pred a = true <;> simp [h]
  · exact det_pure a
  · exact det_empty

theorem det_altsAux (rest : List (Unit → Parser T)) :
    ∀ acc : Unit → Parser T, Det (acc ()) → (∀ q ∈ rest, Det (q ())) →
      Det ((rest.foldl (fun acc curr => fun _ => Monpar.alt (acc ()) curr) acc) ()) := by
  induction rest with
  | nil =>
    intro acc hacc _
    simpa using hacc
  | cons c cs ih =>
    intro acc hacc hmem
    simp only [List.foldl_cons]
    apply ih
    · exact det_alt hacc (hmem c (by simp))
    · intro q hq
      exact hmem q (by simp [hq])

/-- C1: every parser value built from the exported primitives and combinators
returns, on every input, a result list with at most one entry; no operation
exposes more than one outcome. -/
theorem C1_results_unambiguous (T : Type) (p : Parser T) (h : Built p) : Det p := by
  induction h with
  | pure a => exact det_pure a
  | empty => exact det_empty
  | fmap fn hp ih => exact det_fmap _ _
  | bind hp hf ihp ihf => exact det_bind ihf
  | ap hpf hpa ihpf ihpa => exact det_ap _ _
  | alt hp hq ihp ihq => exact det_alt ihp ihq
  | alts ps hmem ih =>
    cases ps with
    | nil => exact det_empty
    | cons t rest =>
      exact det_altsAux rest t (ih t (by simp)) (fun q hq => ih q (by simp [hq]))
  | many hp ihp => exact det_many _
  | some hp ihp => exact det_some _
  | take => exact det_take
  | peek => exact det_peek
  | sat pred => exact det_sat pred
  | char c => exact det_sat (eq c)
  | sentence str => exact det_sentence str
  | whitespace => exact det_sat _
  | token hp ihp => exact det_ap _ _

/-- Witness for C1 at a concrete built parser and input. -/
theorem C1_results_unambiguous_witness :
    (Monpar.alt Monpar.take (fun _ => Monpar.peek) ['a', 'b']).length ≤ 1 :=
  C1_results_unambiguous Str _
    (Built.alt Built.take Built.peek) ['a', 'b']

theorem take_nil : Monpar.take ([] : Str) = [] := rfl

theorem take_cons (c : Char) (rest : Str) :
    Monpar.take (c :: rest) = [([c], rest)] := by
  simp [Monpar.take]

/-- C2: when the first parser succeeds, alt returns exactly its result and the
second alternative is never forced or run (force log unchanged); when the
first parser fails, the second alternative is forced exactly once and run on
the original, unconsumed input. -/
theorem C2_alt_commits_or_forces (T : Type) (p q : Parser T) (i : Nat)
    (s : Str) (log : Log) :
    (p s ≠ [] →
      Monpar.alt p (fun _ => q) s = p s ∧
      altI (liftP p) (thk i (liftP q)) s log = (p s, log)) ∧
    (p s = [] →
      Monpar.alt p (fun _ => q) s = q s ∧
      altI (liftP p) (thk i (liftP q)) s log = (q s, log ++ [i])) := by
  constructor
  · intro h
    rcases hps : p s with _ | ⟨x, t⟩
    · exact absurd hps h
    · constructor <;> simp [Monpar.alt, altI, liftP, thk, hps]
  · intro h
    constructor <;> simp [Monpar.alt, altI, liftP, thk, h]

/-- Witness for C2: both branches at concrete parsers and inputs. -/
theorem C2_alt_commits_or_forces_witness :
    (Monpar.take ['a'] ≠ [] ∧
      altI (liftP Monpar.take) (thk 7 (liftP Monpar.peek)) ['a'] []
        = (Monpar.take ['a'], [])) ∧
    ((Monpar.empty () : Parser Str) ['a'] = [] ∧
      altI (liftP (Monpar.empty () : Parser Str)) (thk 7 (liftP Monpar.peek)) ['a'] []
        = (Monpar.peek ['a'], [] ++ [7])) :=
  ⟨⟨by decide, ((C2_alt_commits_or_forces Str Monpar.take Monpar.peek 7 ['a'] []).1
      (by decide)).2⟩,
   ⟨rfl, ((C2_alt_commits_or_forces Str (Monpar.empty ()) Monpar.peek 7 ['a'] []).2
      rfl).2⟩⟩

/-- C5: unpack returns the parsed value exactly when the parse succeeded with
an empty remainder, and signals absence (none) in every other case, collapsing
parse failure and leftover input into one outcome. -/
theorem C5_unpack_total_consumption (T : Type) (p : Parser T) (s : Str) :
    (∀ v : T, unpack p s = Option.some v ↔
      (p s).head? = Option.some (v, ([] : Str))) ∧
    (unpack p s = Option.none ↔
      ∀ v : T, (p s).head? ≠ Option.some (v, ([] : Str))) := by
  rcases h : p s with _ | ⟨⟨v0, rem⟩, t⟩
  · simp [unpack, h]
  · by_cases hr : rem = [] <;> simp [unpack, h, hr]

/-- C7: sat consumes one character and tests the predicate on it; it succeeds
exactly when the input is non-empty and the predicate holds of the first
character, and the failing path is a plain failure with no consumption. -/
theorem C7_sat_first_char (pred : Str → Bool) (s : Str) :
    sat pred s = (match s with
      | [] => []
      | c :: rest => if pred [c] then [([c], rest)] else []) := by
  cases s with
  | nil => rfl
  | cons c rest =>
    cases h : pred [c] <;>
      simp [Monpar.sat, Monpar.bind, take_cons, h, Monpar.pure, Monpar.empty]

/-- C8: left identity of the sequencing law, bind(pure(v), f)(s) = f(v)(s). -/
theorem C8_bind_left_identity (T U : Type) (v : T) (f : T → Parser U)
    (s : Str) : Monpar.bind (Monpar.pure v) f s = f v s := rfl

theorem manyF_spec {p : Parser T} :
    ∀ (fuel : Nat) (s : Str) (vs : List T) (fin : Str),
      manyF p fuel s = Option.some (vs, fin) → ManySpec p s vs fin := by
  intro fuel
  induction fuel with
  | zero =>
    intro s vs fin h
    simp [manyF] at h
  | succ n ih =>
    intro s vs fin h
    rcases hp : p s with _ | ⟨⟨v, rest⟩, t⟩
    · simp only [manyF, hp, Option.some.injEq, Prod.mk.injEq] at h
      rw [← h.1, ← h.2]
      exact ManySpec.stop hp
    · simp only [manyF, hp] at h
      rcases hm : manyF p n rest with _ | ⟨vs2, fin2⟩
      · rw [hm] at h
        simp at h
      · rw [hm] at h
        simp only [Option.some.injEq, Prod.mk.injEq] at h
        rw [← h.1, ← h.2]
        exact ManySpec.step hp (ih rest vs2 fin2 hm)

theorem manyF_of_fail {p : Parser T} {s : Str} (hp : p s = []) (n : Nat) :
    manyF p (n + 1) s = Option.some ([], s) := by
  rw [manyF, hp]

/-- C4: whenever the repetition loop of many exits (expressed as the fuelled
loop returning a value), it exits with a success: an empty collected sequence
and the untouched input when the parser fails immediately, and otherwise the
values collected in order (the ManySpec relation) with the remainder of the
last success; and some fails exactly when many collects the empty sequence,
otherwise some equals many. -/
theorem C4_many_never_fails_some (T : Type) (p : Parser T) (s : Str)
    (vs : List T) (fin : Str)
    (h : manyF p (s.length + 1) s = Option.some (vs, fin)) :
    Monpar.many p s = [(vs, fin)] ∧
    ManySpec p s vs fin ∧
    (p s = [] → vs = [] ∧ fin = s) ∧
    Monpar.some p s = (if vs.isEmpty then [] else [(vs, fin)]) ∧
    (Monpar.some p s = [] ↔ vs = []) := by
  have hmany : Monpar.many p s = [(vs, fin)] := by simp [Monpar.many, h]
  have hsome : Monpar.some p s = (if vs.isEmpty then [] else [(vs, fin)]) := by
    by_cases hv : vs = []
    · subst hv
      simp [Monpar.some, hmany]
    · have hne : vs.isEmpty = false := by simpa [List.isEmpty_iff] using hv
      simp [Monpar.some, hmany, hne, List.length_eq_zero, hv]
  refine ⟨hmany, manyF_spec _ _ _ _ h, ?_, hsome, ?_⟩
  · intro hp
    have h0 := manyF_of_fail hp s.length
    rw [h] at h0
    simp only [Option.some.injEq, Prod.mk.injEq] at h0
    exact h0
  · rw [hsome]
    by_cases hv : vs = [] <;> simp [hv, List.isEmpty_iff]

/-- Witness for C4 at a concrete consuming parser. -/
theorem C4_many_never_fails_some_witness :
    manyF (Monpar.char ['a']) ((['a', 'b'] : Str).length + 1) ['a', 'b']
        = Option.some ([['a']], ['b']) ∧
    Monpar.many (Monpar.char ['a']) ['a', 'b'] = [([['a']], ['b'])] ∧
    Monpar.some (Monpar.char ['a']) ['a', 'b'] = [([['a']], ['b'])] :=
  ⟨by decide,
   (C4_many_never_fails_some Str (Monpar.char ['a']) ['a', 'b'] [['a']] ['b']
      (by decide)).1,
   by
    have h := (C4_many_never_fails_some Str (Monpar.char ['a']) ['a', 'b'] [['a']] ['b']
      (by decide)).2.2.2.1
    simpa using h⟩

theorem manyF_terminates {p : Parser T}
    (hcons : ∀ (s : Str) (v : T) (rest : Str) (t : ParserRes T),
      p s = (v, rest) :: t → rest.length < s.length) :
    ∀ (fuel : Nat) (s : Str), s.length < fuel → (manyF p fuel s).isSome := by
  intro fuel
  induction fuel with
  | zero =>
    intro s h
    exact absurd h (Nat.not_lt_zero _)
  | succ n ih =>
    intro s h
    rcases hp : p s with _ | ⟨⟨v, rest⟩, t⟩
    · simp [manyF, hp]
    · have hr := hcons s v rest t hp
      have hs := ih rest (by omega)
      simp only [manyF, hp]
      rcases hm : manyF p n rest with _ | ⟨vs, fin⟩
      · rw [hm] at hs
        simp at hs
      · rfl

theorem manyF_diverges {p : Parser T} {s : Str}
    (hp : ∃ (v : T) (t : ParserRes T), p s = (v, s) :: t) :
    ∀ fuel : Nat, manyF p fuel s = Option.none := by
  obtain ⟨v, t, hp⟩ := hp
  intro fuel
  induction fuel with
  | zero => rfl
  | succ n ih => simp only [manyF, hp, ih]

/-- C6: if every success of the parser strictly shrinks the input, the
repetition loop of many terminates on every finite input (one unit of fuel
per character suffices); and for a parser with a zero-consumption success the
loop never exits, whatever the iteration bound (so many, and some built on
it, loop indefinitely). -/
theorem C6_many_termination :
    (∀ (T : Type) (p : Parser T),
        (∀ (s : Str) (v : T) (rest : Str) (t : ParserRes T),
            p s = (v, rest) :: t → rest.length < s.length) →
        ∀ s : Str, (manyF p (s.length + 1) s).isSome) ∧
    (∀ (T : Type) (p : Parser T) (s : Str),
        (∃ (v : T) (t : ParserRes T), p s = (v, s) :: t) →
        ∀ fuel : Nat, manyF p fuel s = Option.none) :=
  ⟨fun _T _p h s => manyF_terminates h _ s (Nat.lt_succ_self _),
   fun _T _p _s h fuel => manyF_diverges h fuel⟩

/-- Witness for C6: take consumes one character, so many(take) terminates;
pure succeeds without consuming, so the loop never exits at any fuel. -/
theorem C6_many_termination_witness :
    (manyF Monpar.take ((['a', 'b'] : Str).length + 1) ['a', 'b']).isSome ∧
    manyF (Monpar.pure (0 : Nat)) 5 ['a'] = Option.none :=
  ⟨C6_many_termination.1 Str Monpar.take
      (by
        intro s v rest t h
        cases s with
        | nil => simp [take_nil] at h
        | cons c cs =>
          rw [take_cons] at h
          simp only [List.cons.injEq, Prod.mk.injEq] at h
          rw [← h.1.2]
          simp)
      ['a', 'b'],
   C6_many_termination.2 Nat (Monpar.pure 0) ['a'] ⟨0, [], rfl⟩ 5⟩

theorem altsAcc_eq {T : Type} :
    ∀ (rest : List (IThunk T)) (acc : IThunk T) (log : Log),
      altsAcc acc rest log
        = (List.foldl altI (acc log).1 rest, (acc log).2) := by
  intro rest
  induction rest with
  | nil =>
    intro acc log
    rfl
  | cons c cs ih =>
    intro acc log
    show altsAcc (fun l => let a := acc l; (altI a.1 c, a.2)) cs log = _
    rw [ih]
    simp [List.foldl_cons]

theorem ordStep_of_ne {T : Type} (r : ParserRes T × Log)
    (h : r.1.isEmpty = false) :
    ∀ (qs : List (Nat × Parser T)) (inp : Str), ordStep r qs inp = r := by
  intro qs inp
  cases qs with
  | nil => rfl
  | cons iq rest =>
    obtain ⟨i, q⟩ := iq
    simp [ordStep, h]

theorem chainF_eq_ordStep {T : Type} :
    ∀ (qs : List (Nat × Parser T)) (F : Str → ParserRes T × Log) (inp : Str),
      chainF F qs inp = ordStep (F inp) qs inp := by
  intro qs
  induction qs with
  | nil =>
    intro F inp
    rfl
  | cons iq rest ih =>
    intro F inp
    obtain ⟨i, q⟩ := iq
    show chainF (fun s => let r := F s; if r.1.isEmpty then (q s, r.2 ++ [i]) else r)
        rest inp = _
    rw [ih]
    by_cases h : (F inp).1.isEmpty
    · simp only [ordStep, h, if_true]
    · have hne : (F inp).1.isEmpty = false := by simpa using h
      simp [ordStep, hne, ordStep_of_ne (F inp) hne]

theorem ordStep_split {T : Type} :
    ∀ (qs : List (Nat × Parser T)) (r : ParserRes T) (m : Log) (inp : Str),
      ordStep (r, m) qs inp
        = (ordRes r qs inp, m ++ forcedMarks r qs inp) := by
  intro qs
  induction qs with
  | nil =>
    intro r m inp
    simp [ordStep, ordRes, forcedMarks]
  | cons iq rest ih =>
    intro r m inp
    obtain ⟨i, q⟩ := iq
    by_cases h : r.isEmpty
    · simp only [ordStep, ordRes, forcedMarks, h, if_true]
      rw [ih]
      simp
    · simp [ordStep, ordRes, forcedMarks, h]

theorem forcedMarks_take {T : Type} :
    ∀ (qs : List (Nat × Parser T)) (r : ParserRes T) (inp : Str),
      forcedMarks r qs inp
        = (qs.map Prod.fst).take (numForced r qs inp) := by
  intro qs
  induction qs with
  | nil =>
    intro r inp
    rfl
  | cons iq rest ih =>
    intro r inp
    obtain ⟨i, q⟩ := iq
    by_cases h : r.isEmpty <;> simp [forcedMarks, numForced, h, ih]

theorem foldl_altI_eq {T : Type} :
    ∀ (qs : List (Nat × Parser T)) (F : Str → ParserRes T × Log) (A : IParser T),
      (∀ (inp : Str) (log : Log), A inp log = ((F inp).1, log ++ (F inp).2)) →
      ∀ (inp : Str) (log : Log),
        (List.foldl altI A (qs.map (fun iq => thk iq.1 (liftP iq.2)))) inp log
          = ((chainF F qs inp).1, log ++ (chainF F qs inp).2) := by
  intro qs
  induction qs with
  | nil =>
    intro F A hA inp log
    simpa [chainF] using hA inp log
  | cons iq rest ih =>
    intro F A hA inp log
    obtain ⟨i, q⟩ := iq
    simp only [List.map_cons, List.foldl_cons]
    rw [show chainF F ((i, q) :: rest) inp
        = chainF (fun s => let r := F s; if r.1.isEmpty then (q s, r.2 ++ [i]) else r)
            rest inp from rfl]
    apply ih
    intro inp2 log2
    simp only [altI, thk, liftP]
    rw [hA]
    by_cases h : (F inp2).1.isEmpty <;> simp [h, List.append_assoc]

/-- C3 as stated is wrong for the first alternative: the reduce in alts ends
with a call, so building the combined parser forces the first deferred
alternative at construction time.  This closed counterexample shows a
non-empty construction-time forcing log for alts of two deferred
alternatives. -/
theorem C3_alts_construction_cex :
    (altsBuild [thk 1 (liftP (Monpar.char ['a'])),
        thk 2 (liftP (Monpar.char ['b']))]).2 ≠ [] := by
  decide

/-- C3 amended: constructing alts over deferred alternatives forces the first
alternative exactly once at construction time and none of the others; during
an invocation, the parser returns the ordered-choice result, the later
alternatives forced are exactly a prefix of them in order (so each is forced
at most once per invocation, and only when the first parser and every
alternative before it have failed on that input), and with distinct probe ids
no id is forced twice. -/
theorem C3_alts_lazy_forcing (T : Type) (i1 : Nat) (p1 : Parser T)
    (qs : List (Nat × Parser T)) :
    (altsBuild (thk i1 (liftP p1)
        :: qs.map (fun iq => thk iq.1 (liftP iq.2)))).2 = [i1] ∧
    (∀ (inp : Str) (log : Log),
      (altsBuild (thk i1 (liftP p1)
          :: qs.map (fun iq => thk iq.1 (liftP iq.2)))).1 inp log
        = (ordRes (p1 inp) qs inp, log ++ forcedMarks (p1 inp) qs inp)) ∧
    (∀ inp : Str, forcedMarks (p1 inp) qs inp
        = (qs.map Prod.fst).take (numForced (p1 inp) qs inp)) ∧
    (∀ inp : Str, (qs.map Prod.fst).Nodup →
        (forcedMarks (p1 inp) qs inp).Nodup) := by
  have hbuild : altsBuild (thk i1 (liftP p1)
      :: qs.map (fun iq => thk iq.1 (liftP iq.2)))
      = (List.foldl altI (liftP p1) (qs.map (fun iq => thk iq.1 (liftP iq.2))), [i1]) := by
    show altsAcc (thk i1 (liftP p1)) (qs.map (fun iq => thk iq.1 (liftP iq.2))) [] = _
    rw [altsAcc_eq]
    simp [thk]
  refine ⟨by rw [hbuild], ?_, fun inp => forcedMarks_take qs (p1 inp) inp, ?_⟩
  · intro inp log
    have h2 : chainF (fun s => (p1 s, [])) qs inp
        = (ordRes (p1 inp) qs inp, forcedMarks (p1 inp) qs inp) := by
      rw [chainF_eq_ordStep]
      show ordStep (p1 inp, []) qs inp = _
      rw [ordStep_split]
      simp
    have hF := foldl_altI_eq qs (fun s => (p1 s, [])) (liftP p1)
      (by intro inp2 log2; simp [liftP]) inp log
    rw [h2] at hF
    rw [hbuild]
    exact hF
  · intro inp hnd
    rw [forcedMarks_take]
    exact List.Nodup.sublist (List.take_sublist _ _) hnd

/-- Witness for C3 amended, at two concrete alternatives. -/
theorem C3_alts_lazy_forcing_witness :
    ([(2, Monpar.char ['b'])].map Prod.fst).Nodup ∧
    (forcedMarks (Monpar.char ['a'] ['b']) [(2, Monpar.char ['b'])] ['b']).Nodup ∧
    (altsBuild [thk 1 (liftP (Monpar.char ['a'])),
        thk 2 (liftP (Monpar.char ['b']))]).2 = [1] :=
  ⟨by decide,
   (C3_alts_lazy_forcing Str 1 (Monpar.char ['a']) [(2, Monpar.char ['b'])]).2.2.2
     ['b'] (by decide),
   (C3_alts_lazy_forcing Str 1 (Monpar.char ['a']) [(2, Monpar.char ['b'])]).1⟩

/-- C9: isImmediate classifies a value as immediate exactly when it is not a
function of declared arity zero; the parser returned by empty() is such a
function, so when the first parser fails, force calls it with no arguments
and obtains the empty outcome list itself, which alt then applies to the
input: a type error (invalid application) instead of a clean failure. -/
theorem C9_alt_empty_type_error (T : Type) (v : JVal T) (pA : Parser T)
    (s : Str) :
    (isImmediate v = false ↔
      ∃ call0 call1, v = JVal.fn 0 call0 call1) ∧
    force (emptyJS : JVal T) = JVal.arr [] ∧
    (pA s = [] → altJS pA emptyJS s = Except.error ()) := by
  refine ⟨?_, rfl, ?_⟩
  · cases v with
    | arr r => simp [isImmediate]
    | fn n c0 c1 =>
      cases n with
      | zero => simp [isImmediate]
      | succ m => simp [isImmediate]
  · intro h
    simp [altJS, h, force, isImmediate, emptyJS, jsApply]

/-- Witness for C9: alt of a failing parser with the parser returned by
empty() is a type error, not a failure result. -/
theorem C9_alt_empty_type_error_witness :
    Monpar.char ['a'] ['b'] = [] ∧
    altJS (Monpar.char ['a']) emptyJS ['b'] = Except.error () :=
  ⟨by decide,
   (C9_alt_empty_type_error Str (JVal.arr []) (Monpar.char ['a']) ['b']).2.2
     (by decide)⟩

/-- C10: takeDigit fails exactly on empty input; on any non-empty input it
succeeds and consumes exactly one character, with no digit validation (a
non-digit character yields the NaN value but still succeeds, as the second
conjunct shows concretely). -/
theorem C10_takeDigit_no_validation (s : Str) :
    takeDigit s = (match s with
      | [] => []
      | c :: rest => [(jsNumber [c], rest)]) ∧
    takeDigit ['x'] = [(JSNum.nan, [])] := by
  constructor
  · cases s with
    | nil => rfl
    | cons c rest => simp [Monpar.takeDigit, Monpar.fmap, take_cons]
  · decide

end Monpar
